import Mathlib

/-!
Verification of the POC-Audio-Server rendezvous/session-broker protocol and the
key-rotating encrypted media transport, as a shallow embedding of the Python
sources. Machine integers are modelled as Nat; byte strings as lists of Nat;
the external SHA-256 hexdigest from hashlib and the external AES block cipher
from pycryptodome are passed as function parameters; network effects (the
broker's peer-notification POST) are passed as an explicit response value.
-/

/-- A Python bytes value: one natural number (0 to 255 in practice) per byte. -/
abbrev Bytes := List Nat

/-- Python str.encode: the UTF-8 bytes of a string. -/
def strEncode (s : String) : Bytes := s.toUTF8.toList.map UInt8.toNat

/-- bytes(a ^ b for a, b in zip(x, y)) as used by SocketAPI.generate_conn_token
(video_chat_server.py line 500): pairwise XOR, truncated to the shorter input. -/
def xorZip : Bytes → Bytes → Bytes
  | a :: as, b :: bs => (a ^^^ b) :: xorZip as bs
  | _, _ => []

/-- Modelled from the spec: the Endpoint of the missing server/utils package,
reduced to the (host, port) pair that the broker and the control API use; the
route field and URL stringification play no role in the claims. -/
structure Endpoint where
  ip : String
  port : Nat
deriving DecidableEq, Repr

/-- Modelled from the spec: UserState of the missing server/utils/user.py.
Section 3 of the spec gives state in IDLE, CONNECTING, CONNECTED. -/
inductive UserState
  | IDLE
  | CONNECTING
  | CONNECTED
deriving DecidableEq, Repr

/-- Modelled from the spec: the User record of the missing server/utils/user.py
(section 3: id, sessionToken, apiEndpoint, state, peerId). -/
structure User where
  id : String
  sess_token : String
  api_endpoint : Endpoint
  state : UserState
  peer : Option String
deriving DecidableEq, Repr

/-- The user registry owned by UserManager's DictUserStorage, as an association
list from user_id to the stored User record. -/
abbrev Registry := List (String × User)

/-- SocketAPI.generate_conn_token (video_chat_server.py lines 498-500):
sha256 of the pairwise XOR of the two users' encoded ids, as a hex digest.
The SHA-256 hexdigest is hashlib library code, passed as sha256hex. -/
def SocketAPI.generate_conn_token (sha256hex : Bytes → String)
    (id1 id2 : String) : String :=
  sha256hex (xorZip (strEncode id1) (strEncode id2))

/-- SocketAPI.generate_sess_token (video_chat_server.py lines 502-504):
sha256 hexdigest of the encoded user id. -/
def SocketAPI.generate_sess_token (sha256hex : Bytes → String)
    (user_id : String) : String :=
  sha256hex (strEncode user_id)

/-- UserManager.generate_token (user_manager.py lines 129-134):
sha256 hexdigest of the encoded user id. -/
def UserManager.generate_token (sha256hex : Bytes → String)
    (user_id : String) : String :=
  sha256hex (strEncode user_id)


/-- The Python exceptions arising in the embedded code paths. typeError models a
call-arity mismatch, indexError an out-of-range list subscript, and the
valueError constructors the distinct ValueError sites of tuple unpacking and of
pycryptodome's AES.new, decrypt and unpad. attributeError models access to an
attribute a class does not define, and userNotFound the UserNotFound exception
of user_manager.py. invalidCiphertext is modelled from the spec: the
InvalidCiphertext error of the section 7 taxonomy, belonging to the exceptions
module missing from src; nothing in encryption.py raises it. -/
inductive PyExc
  | typeError
  | indexError
  | attributeError
  | userNotFound
  | valueErrorUnpack
  | valueErrorIVLength
  | valueErrorDataLength
  | valueErrorPadding
  | duplicateUser
  | invalidCiphertext
deriving DecidableEq, Repr

/-- Decidable equality of Except results, for concrete evaluation of the
fallible operations. -/
instance {ε α : Type} [DecidableEq ε] [DecidableEq α] :
    DecidableEq (Except ε α) := fun x y =>
  match x, y with
  | .ok a, .ok b =>
    if h : a = b then isTrue (by rw [h])
    else isFalse (by intro hc; cases hc; exact h rfl)
  | .error a, .error b =>
    if h : a = b then isTrue (by rw [h])
    else isFalse (by intro hc; cases hc; exact h rfl)
  | .ok _, .error _ => isFalse (by intro hc; cases hc)
  | .error _, .ok _ => isFalse (by intro hc; cases hc)

/-- The method names the UserManager class (user_manager.py lines 110-177)
actually defines: Python attribute access on a UserManager instance raises
AttributeError for any name outside this table. -/
def UserManager.methods : List String :=
  ["generate_user_id", "generate_token", "add_user", "set_user_state",
    "get_user", "remove_user"]

/-- The member names of the ServerState enum (video_chat_server.py lines
130-141): NEW, INITIALIZED, CLOSED, LIVE, OPEN. There is no INIT member, so
the attribute access ServerState.INIT raises AttributeError. -/
def ServerState.members : List String :=
  ["NEW", "INITIALIZED", "CLOSED", "LIVE", "OPEN"]

/-- VideoChatServer.get_user_by_id (video_chat_server.py lines 253-260):
evaluates self.user_manager.get_user_by_id(user_id) inside a try/except
UserNotFound. The attribute access consults UserManager's method table, which
has get_user but no get_user_by_id, so it raises AttributeError, which the
except clause does not catch; behind it, the storage lookup would raise
UserNotFound for an absent id and return the stored record otherwise. -/
def VideoChatServer.get_user_by_id (reg : Registry) (user_id : String) :
    Except PyExc User :=
  if "get_user_by_id" ∈ UserManager.methods then
    match reg.lookup user_id with
    | some u => .ok u
    | none => .error .userNotFound
  else .error .attributeError

/-- SocketAPI.init (video_chat_server.py lines 577-597), reached through
start_websocket: after the state guard it stores the server and endpoint,
computes cls.conn_token = generate_conn_token(users) at line 592, and then
executes cls.state = ServerState.INIT at line 593. ServerState has no INIT
member, so this attribute access raises AttributeError before the users map is
filled and before init returns. -/
def SocketAPI.init (sha256hex : Bytes → String) (requester host : User) :
    Except PyExc String :=
  let conn_token :=
    SocketAPI.generate_conn_token sha256hex requester.id host.id
  if "INIT" ∈ ServerState.members then .ok conn_token
  else .error .attributeError

/-- The outcomes of VideoChatServer.handle_peer_connection: the API errors
BadRequest, InvalidState and BadGateway that it raises itself, or an uncaught
Python exception escaping the handler. -/
inductive PCErr
  | badRequest
  | invalidState
  | badGateway
  | python (e : PyExc)
deriving DecidableEq, Repr

/-- VideoChatServer.handle_peer_connection (video_chat_server.py lines
300-339). Raises BadRequest when user_id equals peer_id; looks up the
requester and then the host peer through get_user_by_id, translating
UserNotFound to BadRequest and letting any other exception — here the
AttributeError from the missing UserManager.get_user_by_id — escape; requires
the host and then the requester to be IDLE (InvalidState); runs
start_websocket, whose SocketAPI.init computes conn_token and then crashes at
ServerState.INIT, that exception also escaping; only then would it POST the
notification to the peer's control endpoint — an unreachable endpoint
(peerResponse none) or a non-200 status raises BadGateway, and a 200 response
returns the websocket endpoint and conn_token. The function writes nothing to
the user registry, which is threaded through unchanged as the second
component. -/
def handle_peer_connection (sha256hex : Bytes → String) (reg : Registry)
    (websocket_endpoint : Endpoint) (peerResponse : Option Nat)
    (user_id peer_id : String) :
    Except PCErr (Endpoint × String) × Registry :=
  if user_id = peer_id then (.error .badRequest, reg)
  else
    match VideoChatServer.get_user_by_id reg user_id with
    | .error .userNotFound => (.error .badRequest, reg)
    | .error e => (.error (.python e), reg)
    | .ok requester =>
      match VideoChatServer.get_user_by_id reg peer_id with
      | .error .userNotFound => (.error .badRequest, reg)
      | .error e => (.error (.python e), reg)
      | .ok host =>
        if host.state ≠ .IDLE then (.error .invalidState, reg)
        else if requester.state ≠ .IDLE then (.error .invalidState, reg)
        else
          match SocketAPI.init sha256hex requester host with
          | .error e => (.error (.python e), reg)
          | .ok conn_token =>
            match peerResponse with
            | none => (.error .badGateway, reg)
            | some status =>
              if status ≠ 200 then (.error .badGateway, reg)
              else (.ok (websocket_endpoint, conn_token), reg)

/-- A dynamically typed Python value as stored in the flat key list and passed
around the user-storage code. -/
inductive PyVal
  | int (n : Nat)
  | bytes (b : Bytes)
  | endp (e : Endpoint)
  | noneV
deriving DecidableEq, Repr

/-- UserManager.add_user (user_manager.py lines 136-145): its signature besides
self declares no parameters; it generates one id (generate_user_id has no retry
loop in the code), stores None as the user_info, and returns only the user_id;
no session token is produced. The args list models the positional arguments of
the call site: Python raises TypeError when it is nonempty. freshId stands for
the random id from generate_user_id. -/
def UserManager.add_user (args : List PyVal) (freshId : String)
    (store : List (String × PyVal)) :
    Except PyExc (String × List (String × PyVal)) :=
  match args with
  | [] =>
    if (store.lookup freshId).isSome then .error .duplicateUser
    else .ok (freshId, (freshId, .noneV) :: store)
  | _ :: _ => .error .typeError

/-- Python tuple unpacking of a string value, a, b = v: succeeds only when the
string has exactly two characters, else raises ValueError. -/
def unpack2 (s : String) : Except PyExc (String × String) :=
  match s.data with
  | [c1, c2] => .ok (String.mk [c1], String.mk [c2])
  | _ => .error .valueErrorUnpack

/-- ServerAPI.create_user (video_chat_server.py lines 419-435): reads
api_endpoint from the request, then runs user_id, sess_token =
video_chat_server.add_user(Endpoint(*api_endpoint)), which forwards to
UserManager.add_user(endpoint); on success it would return the JSON body
(sess_token, user_id) with status 200. -/
def ServerAPI.create_user (freshId : String) (store : List (String × PyVal))
    (api_endpoint : Endpoint) : Except PyExc ((String × String) × Nat) := do
  let r ← UserManager.add_user [.endp api_endpoint] freshId store
  let (user_id, sess_token) ← unpack2 r.1
  return ((sess_token, user_id), 200)

-- Concrete material for counterexamples and witnesses.

/-- A registered user in state IDLE with no peer. -/
def uA : User := ⟨"aaaaa", "tokA", ⟨"10.0.0.1", 4000⟩, .IDLE, none⟩

/-- A second registered user in state IDLE with no peer. -/
def uB : User := ⟨"bbbbb", "tokB", ⟨"10.0.0.2", 4000⟩, .IDLE, none⟩

/-- A registered user in state CONNECTED with a peer recorded. -/
def uC : User := ⟨"ccccc", "tokC", ⟨"10.0.0.3", 4000⟩, .CONNECTED, some "ddddd"⟩

/-- A three-user registry: two IDLE users and one CONNECTED user. -/
def regABC : Registry := [("aaaaa", uA), ("bbbbb", uB), ("ccccc", uC)]

/-- A stand-in hexdigest function for concrete evaluation. -/
def hashC : Bytes → String := fun _ => "tok"

/-- The websocket endpoint used in concrete evaluations. -/
def epW : Endpoint := ⟨"10.0.0.9", 3000⟩

/-- XOREncryption.encrypt (encryption.py lines 39-43): appends bit1 xor bit2
for each pair in zip(data, key); data and key are bit arrays, and zip truncates
to the shorter of the two. -/
def XOREncryption.encrypt (data key : List Bool) : List Bool :=
  List.zipWith (fun b1 b2 => xor b1 b2) data key

/-- XOREncryption.decrypt (encryption.py lines 46-50): the same pairwise XOR as
encrypt, written with an identical body in the source. -/
def XOREncryption.decrypt (data key : List Bool) : List Bool :=
  List.zipWith (fun b1 b2 => xor b1 b2) data key

/-- pycryptodome pad(data, 16), PKCS#7 style: appends n copies of the byte n,
where n = 16 - len(data) % 16 (so 1 to 16 bytes are always added). -/
def pad16 (data : Bytes) : Bytes :=
  data ++ List.replicate (16 - data.length % 16) (16 - data.length % 16)

/-- pycryptodome unpad(data, 16): raises ValueError on empty or
non-multiple-of-16 input; reads the final byte n; raises ValueError unless
1 <= n <= 16 and the last n bytes all equal n; otherwise strips those n
bytes. -/
def unpad16 (data : Bytes) : Except PyExc Bytes :=
  if data.length = 0 ∨ data.length % 16 ≠ 0 then .error .valueErrorPadding
  else
    let n := data.getLastD 0
    if n = 0 ∨ 16 < n then .error .valueErrorPadding
    else if data.drop (data.length - n) = List.replicate n n then
      .ok (data.take (data.length - n))
    else .error .valueErrorPadding

/-- Fuel-indexed splitting of a byte string into 16-byte blocks; the fuel is
an upper bound on the input length, so the recursion is structural. -/
def chunksAux : Nat → Bytes → List Bytes
  | 0, _ => []
  | _ + 1, [] => []
  | fuel + 1, x :: l => ((x :: l).take 16) :: chunksAux fuel ((x :: l).drop 16)

/-- A byte string as its list of consecutive 16-byte blocks (the final block is
shorter when the length is not a multiple of 16). This is how pycryptodome's
CBC mode walks the buffer. -/
def chunk16 (l : Bytes) : List Bytes := chunksAux l.length l

/-- CBC encryption over 16-byte blocks: each plaintext block is XORed with the
previous ciphertext block (initially the IV) and passed through the block
cipher E. -/
def cbcEncBlocks (E : Bytes → Bytes) (iv : Bytes) : List Bytes → List Bytes
  | [] => []
  | b :: bs =>
    let c := E (xorZip b iv)
    c :: cbcEncBlocks E c bs

/-- CBC decryption over 16-byte blocks: each ciphertext block is passed through
the inverse block cipher D and XORed with the previous ciphertext block
(initially the IV). -/
def cbcDecBlocks (D : Bytes → Bytes) (iv : Bytes) : List Bytes → List Bytes
  | [] => []
  | c :: cs => xorZip (D c) iv :: cbcDecBlocks D c cs

/-- AESEncryption.encrypt (encryption.py lines 76-85): pads the plaintext to
the block size, CBC-encrypts it under the fresh random IV drawn by
pycryptodome's AES.new (the IV is explicit here), and returns IV followed by
the ciphertext. E key is the AES block permutation supplied by the
pycryptodome library for that key. -/
def AESEncryption.encrypt (E : Bytes → Bytes → Bytes) (key iv data : Bytes) :
    Bytes :=
  iv ++ (cbcEncBlocks (E key) iv (chunk16 (pad16 data))).flatten

/-- AESEncryption.decrypt (encryption.py lines 89-99): takes the first 128 bits
as the IV — AES.new raises ValueError when fewer than 16 bytes are available —
CBC-decrypts the remainder — pycryptodome raises ValueError when it is not a
multiple of the block size — and unpads, which raises ValueError on corrupted
padding. None of these errors is caught or translated in encryption.py. D key
is the inverse AES block permutation supplied by the library. -/
def AESEncryption.decrypt (D : Bytes → Bytes → Bytes) (key data : Bytes) :
    Except PyExc Bytes :=
  let iv := data.take 16
  if iv.length ≠ 16 then .error .valueErrorIVLength
  else
    let ct := data.drop 16
    if ct.length % 16 ≠ 0 then .error .valueErrorDataLength
    else unpad16 (cbcDecBlocks (D key) iv (chunk16 ct)).flatten

/-- One iteration of the gen_keys loop in AVController.__init__
(av_controller.py lines 52-62): self.keys += (key_idx, key) extends the flat
Python list self.keys with two separate elements — the integer index and the
key bytes — and key_idx is then incremented. genKey i stands for the key the
generator produces at iteration i. -/
def gen_keys_step (genKey : Nat → Bytes) (st : Nat × List PyVal) :
    Nat × List PyVal :=
  (st.1 + 1, st.2 ++ [.int st.1, .bytes (genKey st.1)])

/-- The gen_keys loop state (key_idx, keys) after n iterations, starting from
key_idx = 0 and keys = []. -/
def gen_keys (genKey : Nat → Bytes) : Nat → Nat × List PyVal
  | 0 => (0, [])
  | n + 1 => gen_keys_step genKey (gen_keys genKey n)

/-- int.from_bytes(b, 'big'). -/
def beBytesToNat (b : Bytes) : Nat := b.foldl (fun acc x => acc * 256 + x) 0

/-- Outcome of a media receive handler: a frame delivered onward to the
consumer, a silent drop (plain return, no effect), or a Python exception
escaping the handler. -/
inductive RecvOutcome
  | delivered (data : Bytes)
  | dropped
  | pyError (e : PyExc)
deriving DecidableEq, Repr

/-- Python subscript v[i] on a dynamically typed key-list entry: indexing bytes
yields the byte as an int (IndexError when out of range); an int is not
subscriptable (TypeError). -/
def pySubscript (v : PyVal) (i : Nat) : Except PyExc PyVal :=
  match v with
  | .bytes b =>
    match b[i]? with
    | some x => .ok (.int x)
    | none => .error .indexError
  | _ => .error .typeError

/-- AudioClientNamespace.on_message (audio_namespace.py lines 43-59): ignores
the client's own messages; reads the 4-byte big-endian key index; evaluates
self.av_controller.keys[key_idx][1] against the flat key list — IndexError when
key_idx is outside the list, TypeError when the entry hit is an int — then
decrypts the remainder with the looked-up entry and writes the result to the
audio output stream. No exception is caught in the handler. -/
def audio_on_message (self_id sender : String) (keys : List PyVal)
    (decrypt : Bytes → PyVal → Except PyExc Bytes) (msg : Bytes) :
    RecvOutcome :=
  if sender = self_id then .dropped
  else
    let key_idx := beBytesToNat (msg.take 4)
    match keys[key_idx]? with
    | none => .pyError .indexError
    | some entry =>
      match pySubscript entry 1 with
      | .error e => .pyError e
      | .ok key =>
        match decrypt (msg.drop 4) key with
        | .error e => .pyError e
        | .ok data => .delivered data

/-- VideoClientNamespace.on_message (video_namespace.py lines 61-85): ignores
the client's own messages; reads the current (index, key) pair self.av.key;
silently returns when the frame's 4-byte big-endian index differs from the
current index; otherwise decrypts with the current key, feeds the ffmpeg output
pipe and stores the frame in cls.video. A decrypt failure escapes the
handler. -/
def video_on_message (self_id sender : String) (cur_key_idx : Nat) (key : Bytes)
    (decrypt : Bytes → Bytes → Except PyExc Bytes) (msg : Bytes) :
    RecvOutcome :=
  if sender = self_id then .dropped
  else
    let key_idx := beBytesToNat (msg.take 4)
    if key_idx ≠ cur_key_idx then .dropped
    else
      match decrypt (msg.drop 4) key with
      | .error e => .pyError e
      | .ok data => .delivered data

/-- The identity block cipher, standing in for the external AES permutation in
concrete witness evaluations. -/
def idCipher : Bytes → Bytes → Bytes := fun _ b => b

/-- A 16-byte all-zero key for concrete evaluations. -/
def key16 : Bytes := List.replicate 16 0

/-- An all-zero 16-byte IV. -/
def iv0 : Bytes := List.replicate 16 0

/-- A 16-byte IV differing from iv0 in its first byte. -/
def iv1 : Bytes := 1 :: List.replicate 15 0

/-- A decrypt stand-in for the audio handler that succeeds on any input. -/
def decOkA : Bytes → PyVal → Except PyExc Bytes := fun d _ => .ok d

/-- A decrypt stand-in for the video handler that succeeds on any input. -/
def decOkV : Bytes → Bytes → Except PyExc Bytes := fun d _ => .ok d

/-- The flat key list after one gen_keys iteration with an all-zero generator:
the int 0 followed by the 16 zero key bytes. -/
def keys1 : List PyVal := (gen_keys (fun _ => key16) 1).2

/-- A framed media packet carrying key index 7 and a two-byte payload. -/
def msg7 : Bytes := [0, 0, 0, 7, 42, 43]

-- Helper lemmas.

theorem xorZip_comm : ∀ a b : Bytes, xorZip a b = xorZip b a := by
  intro a
  induction a with
  | nil => intro b; cases b <;> rfl
  | cons x xs ih =>
    intro b
    cases b with
    | nil => rfl
    | cons y ys => simp only [xorZip, Nat.xor_comm, ih]

theorem length_xorZip : ∀ a b : Bytes, (xorZip a b).length = min a.length b.length := by
  intro a
  induction a with
  | nil => intro b; cases b <;> simp [xorZip]
  | cons x xs ih =>
    intro b
    cases b with
    | nil => simp [xorZip]
    | cons y ys => simp [xorZip, ih, Nat.succ_min_succ]

theorem xorZip_cancel : ∀ a iv : Bytes, a.length = iv.length →
    xorZip (xorZip a iv) iv = a := by
  intro a
  induction a with
  | nil => intro iv _; cases iv <;> rfl
  | cons x xs ih =>
    intro iv h
    cases iv with
    | nil => simp at h
    | cons y ys =>
      simp only [xorZip, Nat.xor_cancel_right, List.cons.injEq, true_and]
      exact ih ys (by simpa using h)

-- region Broker claims

theorem get_user_by_id_attribute_error (reg : Registry) (uid : String) :
    VideoChatServer.get_user_by_id reg uid = .error .attributeError := by
  unfold VideoChatServer.get_user_by_id
  rw [if_neg (by decide)]

/-- C1: the claim states the spec-intended brokering behavior — InvalidState
whenever either user's state is not IDLE, and on both-IDLE acceptance the
endpoint and token with both users moved to CONNECTING — but the code cannot
exhibit any of it: for every distinct pair of user ids, handle_peer_connection
dies at the requester lookup with an AttributeError escaping the handler,
because UserManager defines get_user but no get_user_by_id and the except
clause catches only UserNotFound; no state check, no transition and no return
is ever reached, whatever the registry and the peer response. -/
theorem C1_broker_crash (sha256hex : Bytes → String) (reg : Registry)
    (ep : Endpoint) (resp : Option Nat) (uid pid : String) (hne : uid ≠ pid) :
    handle_peer_connection sha256hex reg ep resp uid pid =
      (.error (.python .attributeError), reg) ∧
    VideoChatServer.get_user_by_id reg uid = .error .attributeError := by
  refine ⟨?_, get_user_by_id_attribute_error reg uid⟩
  unfold handle_peer_connection
  rw [if_neg hne, get_user_by_id_attribute_error]

/-- C1 witness: the crash theorem evaluated at the concrete registry and the
distinct IDLE pair (aaaaa, bbbbb) with an accepting peer response. -/
theorem C1_crash_witness :
    handle_peer_connection hashC regABC epW (some 200) "aaaaa" "bbbbb" =
      (.error (.python .attributeError), regABC) ∧
    VideoChatServer.get_user_by_id regABC "aaaaa" = .error .attributeError :=
  C1_broker_crash hashC regABC epW (some 200) "aaaaa" "bbbbb" (by decide)

/-- C2: the claim states BadGateway with both users rolled back to IDLE when
the peer's control endpoint is unreachable or refuses — but the code can never
raise BadGateway: a same-id pair raises BadRequest, every distinct pair dies
with AttributeError at the requester lookup before the notification, and even
granting the lookups, SocketAPI.init raises AttributeError at the nonexistent
ServerState.INIT inside start_websocket, still before contact_client. For
every input the broker outcome differs from BadGateway. -/
theorem C2_badgateway_unreachable (sha256hex : Bytes → String) (reg : Registry)
    (ep : Endpoint) (resp : Option Nat) (uid pid : String) :
    (handle_peer_connection sha256hex reg ep resp uid pid).1 ≠
      .error .badGateway ∧
    (∀ requester host : User,
      SocketAPI.init sha256hex requester host = .error .attributeError) := by
  constructor
  · unfold handle_peer_connection
    by_cases h : uid = pid
    · rw [if_pos h]
      simp
    · rw [if_neg h, get_user_by_id_attribute_error]
      simp
  · intro requester host
    simp only [SocketAPI.init]
    rw [if_neg (by decide)]


/-- C3: the claim says every well-formed POST /create_user registers the user
and returns 200 with both user_id and sess_token. The code cannot: the handler
calls UserManager.add_user with the Endpoint argument although that method
declares no parameter besides self, so every request raises TypeError; and
add_user, called correctly, returns only the single user_id with no session
token, so the unpacking into (user_id, sess_token) could never succeed
either. -/
theorem C3_create_user_bug :
    (∀ (freshId : String) (store : List (String × PyVal)) (ep : Endpoint),
      ServerAPI.create_user freshId store ep = .error .typeError) ∧
    (∀ freshId : String,
      UserManager.add_user [] freshId [] =
        .ok (freshId, [(freshId, PyVal.noneV)])) :=
  ⟨fun _ _ _ => rfl, fun _ => rfl⟩

/-- C4: the connection token is commutative — generate_conn_token applied to
(a, b) equals generate_conn_token applied to (b, a), for every hexdigest
function and all user-id strings, because zip-XOR of the encoded ids is
commutative. -/
theorem C4_conn_token_comm (sha256hex : Bytes → String) (a b : String) :
    SocketAPI.generate_conn_token sha256hex a b =
      SocketAPI.generate_conn_token sha256hex b a := by
  unfold SocketAPI.generate_conn_token
  rw [xorZip_comm]

/-- C10: the per-connection session token issued by the signaling channel on
connect equals the registry token of UserManager.generate_token — both are the
SHA-256 hex digest of the encoded user id — so the channel token is a
deterministic function of the public user id alone, identical across
components, never fresh per connection. -/
theorem C10_sess_token_deterministic (sha256hex : Bytes → String)
    (uid : String) :
    SocketAPI.generate_sess_token sha256hex uid =
      UserManager.generate_token sha256hex uid ∧
    SocketAPI.generate_sess_token sha256hex uid = sha256hex (strEncode uid) :=
  ⟨rfl, rfl⟩

-- region Encryption lemmas

theorem xor_roundtrip_bits : ∀ (p k : List Bool), p.length ≤ k.length →
    List.zipWith (fun b1 b2 => xor b1 b2)
      (List.zipWith (fun b1 b2 => xor b1 b2) p k) k = p := by
  intro p
  induction p with
  | nil => intro k _; rfl
  | cons x xs ih =>
    intro k h
    cases k with
    | nil => simp at h
    | cons y ys =>
      simp only [List.zipWith, List.cons.injEq]
      refine ⟨by cases x <;> cases y <;> rfl, ih ys (by simpa using h)⟩

theorem pad16_length (d : Bytes) :
    (pad16 d).length = d.length + (16 - d.length % 16) := by
  simp [pad16]

theorem pad16_length_mod (d : Bytes) : (pad16 d).length % 16 = 0 := by
  rw [pad16_length]
  omega

theorem pad16_length_pos (d : Bytes) : 0 < (pad16 d).length := by
  rw [pad16_length]
  omega

theorem getLastD_append_replicate (d : Bytes) (n : Nat) (hn : 0 < n) :
    (d ++ List.replicate n n).getLastD 0 = n := by
  obtain ⟨m, rfl⟩ : ∃ m, n = m + 1 := ⟨n - 1, by omega⟩
  rw [List.replicate_succ', ← List.append_assoc]
  exact List.getLastD_concat _ _ _

theorem unpad16_pad16 (d : Bytes) : unpad16 (pad16 d) = .ok d := by
  have hmod := pad16_length_mod d
  have hpos := pad16_length_pos d
  have hn : 0 < 16 - d.length % 16 ∧ 16 - d.length % 16 ≤ 16 := by omega
  unfold unpad16
  rw [if_neg (by omega)]
  have hlast : (pad16 d).getLastD 0 = 16 - d.length % 16 :=
    getLastD_append_replicate d _ hn.1
  rw [hlast, if_neg (by omega)]
  have hsub : (pad16 d).length - (16 - d.length % 16) = d.length := by
    rw [pad16_length]; omega
  rw [hsub]
  unfold pad16
  rw [List.drop_left' rfl, if_pos rfl, List.take_left' rfl]

theorem chunksAux_congr : ∀ (f1 f2 : Nat) (l : Bytes),
    l.length ≤ f1 → l.length ≤ f2 → chunksAux f1 l = chunksAux f2 l := by
  intro f1
  induction f1 with
  | zero =>
    intro f2 l h1 _
    have : l = [] := List.length_eq_zero.mp (by omega)
    subst this
    cases f2 <;> rfl
  | succ g ih =>
    intro f2 l h1 h2
    cases l with
    | nil => cases f2 <;> rfl
    | cons x t =>
      cases f2 with
      | zero => simp at h2
      | succ g2 =>
        simp only [chunksAux]
        congr 1
        apply ih
        · simp only [List.length_drop, List.length_cons] at *
          omega
        · simp only [List.length_drop, List.length_cons] at *
          omega

theorem chunk16_cons_eq (l : Bytes) (h : l ≠ []) :
    chunk16 l = l.take 16 :: chunk16 (l.drop 16) := by
  obtain ⟨x, t, rfl⟩ := List.exists_cons_of_ne_nil h
  show chunksAux (x :: t).length (x :: t) = _
  rw [List.length_cons]
  simp only [chunksAux]
  congr 1
  apply chunksAux_congr
  · simp only [List.length_drop, List.length_cons]
    omega
  · exact Nat.le_refl _

theorem chunk16_flatten : ∀ bs : List Bytes, (∀ b ∈ bs, b.length = 16) →
    chunk16 bs.flatten = bs := by
  intro bs
  induction bs with
  | nil => intro _; rfl
  | cons b tl ih =>
    intro h
    have hb : b.length = 16 := h b (List.mem_cons_self _ _)
    have hbne : b ≠ [] := by
      intro he
      rw [he] at hb
      simp at hb
    have hne : b ++ tl.flatten ≠ [] := fun hh =>
      hbne (List.append_eq_nil.mp hh).1
    rw [List.flatten_cons, chunk16_cons_eq _ hne, List.take_left' hb,
      List.drop_left' hb, ih (fun x hx => h x (List.mem_cons_of_mem _ hx))]

theorem chunksAux_flatten : ∀ (fuel : Nat) (l : Bytes), l.length ≤ fuel →
    (chunksAux fuel l).flatten = l := by
  intro fuel
  induction fuel with
  | zero =>
    intro l h
    have : l = [] := List.length_eq_zero.mp (by omega)
    subst this
    rfl
  | succ g ih =>
    intro l h
    cases l with
    | nil => rfl
    | cons x t =>
      simp only [chunksAux, List.flatten_cons]
      rw [ih _ (by simp only [List.length_drop, List.length_cons] at *; omega)]
      exact List.take_append_drop _ _

theorem flatten_chunk16 (l : Bytes) : (chunk16 l).flatten = l :=
  chunksAux_flatten l.length l (Nat.le_refl _)

theorem chunksAux_blocks_len : ∀ (fuel : Nat) (l : Bytes), l.length ≤ fuel →
    l.length % 16 = 0 → ∀ b ∈ chunksAux fuel l, b.length = 16 := by
  intro fuel
  induction fuel with
  | zero => intro l _ _ b hb; cases hb
  | succ g ih =>
    intro l hle hmod b hb
    cases l with
    | nil => cases hb
    | cons x t =>
      simp only [chunksAux] at hb
      have hlen : 16 ≤ (x :: t).length := by
        by_contra hc
        simp only [List.length_cons] at *
        omega
      have hd1 : (List.drop 16 (x :: t)).length ≤ g := by
        simp only [List.length_drop, List.length_cons] at *
        omega
      have hd2 : (List.drop 16 (x :: t)).length % 16 = 0 := by
        simp only [List.length_drop, List.length_cons] at *
        omega
      rcases List.mem_cons.mp hb with h | h
      · rw [h, List.length_take]
        omega
      · exact ih _ hd1 hd2 b h

theorem chunk16_blocks_len (l : Bytes) (h : l.length % 16 = 0) :
    ∀ b ∈ chunk16 l, b.length = 16 :=
  chunksAux_blocks_len l.length l (Nat.le_refl _) h

theorem cbcEnc_blocks_len (E : Bytes → Bytes)
    (hE : ∀ b, b.length = 16 → (E b).length = 16) :
    ∀ (bs : List Bytes) (iv : Bytes), iv.length = 16 →
      (∀ b ∈ bs, b.length = 16) →
      ∀ c ∈ cbcEncBlocks E iv bs, c.length = 16 := by
  intro bs
  induction bs with
  | nil => intro iv _ _ c hc; cases hc
  | cons b tl ih =>
    intro iv hiv hbs c hc
    have hb : b.length = 16 := hbs b (List.mem_cons_self _ _)
    have hxlen : (xorZip b iv).length = 16 := by
      rw [length_xorZip, hb, hiv]
      simp
    have hclen : (E (xorZip b iv)).length = 16 := hE _ hxlen
    simp only [cbcEncBlocks] at hc
    rcases List.mem_cons.mp hc with h | h
    · rw [h]; exact hclen
    · exact ih _ hclen (fun x hx => hbs x (List.mem_cons_of_mem _ hx)) c h

theorem cbcDec_cbcEnc (E D : Bytes → Bytes)
    (hED : ∀ b, b.length = 16 → D (E b) = b)
    (hE : ∀ b, b.length = 16 → (E b).length = 16) :
    ∀ (bs : List Bytes) (iv : Bytes), iv.length = 16 →
      (∀ b ∈ bs, b.length = 16) →
      cbcDecBlocks D iv (cbcEncBlocks E iv bs) = bs := by
  intro bs
  induction bs with
  | nil => intro iv _ _; rfl
  | cons b tl ih =>
    intro iv hiv hbs
    have hb : b.length = 16 := hbs b (List.mem_cons_self _ _)
    have hxlen : (xorZip b iv).length = 16 := by
      rw [length_xorZip, hb, hiv]
      simp
    simp only [cbcEncBlocks, cbcDecBlocks, List.cons.injEq]
    constructor
    · rw [hED _ hxlen]
      exact xorZip_cancel b iv (by omega)
    · exact ih _ (hE _ hxlen) (fun x hx => hbs x (List.mem_cons_of_mem _ hx))

theorem flatten_blocks_mod (bs : List Bytes)
    (h : ∀ b ∈ bs, b.length = 16) : bs.flatten.length % 16 = 0 := by
  induction bs with
  | nil => rfl
  | cons b tl ih =>
    simp only [List.flatten_cons, List.length_append]
    have hb : b.length = 16 := h b (List.mem_cons_self _ _)
    have ht := ih (fun x hx => h x (List.mem_cons_of_mem _ hx))
    omega

theorem aes_roundtrip (E D : Bytes → Bytes → Bytes) (k iv p : Bytes)
    (hED : ∀ b, b.length = 16 → D k (E k b) = b)
    (hE : ∀ b, b.length = 16 → (E k b).length = 16) (hiv : iv.length = 16) :
    AESEncryption.decrypt D k (AESEncryption.encrypt E k iv p) = .ok p := by
  have hblocks : ∀ b ∈ chunk16 (pad16 p), b.length = 16 :=
    chunk16_blocks_len _ (pad16_length_mod p)
  have hcblocks : ∀ c ∈ cbcEncBlocks (E k) iv (chunk16 (pad16 p)),
      c.length = 16 := cbcEnc_blocks_len _ hE _ _ hiv hblocks
  have hctmod : (cbcEncBlocks (E k) iv (chunk16 (pad16 p))).flatten.length %
      16 = 0 := flatten_blocks_mod _ hcblocks
  unfold AESEncryption.encrypt AESEncryption.decrypt
  rw [List.take_left' hiv, List.drop_left' hiv, if_neg (by omega),
    if_neg (by omega), chunk16_flatten _ hcblocks,
    cbcDec_cbcEnc (E k) (D k) hED hE _ _ hiv hblocks, flatten_chunk16,
    unpad16_pad16]

theorem unpad16_not_invalid (d : Bytes) :
    unpad16 d ≠ Except.error PyExc.invalidCiphertext := by
  unfold unpad16
  split
  · simp
  · dsimp only
    split
    · simp
    · split <;> simp

/-- C7: AES-CBC round-trip — for every byte payload p, every valid AES key
(128, 192 or 256 bits) and the block permutation the pycryptodome library
supplies for it (D k inverting E k on 16-byte blocks, length-preserving), and
any two distinct fresh 128-bit IVs, both encryptions decrypt back to p and the
two ciphertexts differ. -/
theorem C7_aes_roundtrip (E D : Bytes → Bytes → Bytes) (k iv iv' p : Bytes)
    (hk : k.length = 16 ∨ k.length = 24 ∨ k.length = 32)
    (hED : ∀ b, b.length = 16 → D k (E k b) = b)
    (hE : ∀ b, b.length = 16 → (E k b).length = 16)
    (h1 : iv.length = 16) (h2 : iv'.length = 16) (hne : iv ≠ iv') :
    AESEncryption.decrypt D k (AESEncryption.encrypt E k iv p) = .ok p ∧
    AESEncryption.decrypt D k (AESEncryption.encrypt E k iv' p) = .ok p ∧
    AESEncryption.encrypt E k iv p ≠ AESEncryption.encrypt E k iv' p := by
  refine ⟨aes_roundtrip E D k iv p hED hE h1,
    aes_roundtrip E D k iv' p hED hE h2, ?_⟩
  intro h
  apply hne
  have hh := congrArg (List.take 16) h
  unfold AESEncryption.encrypt at hh
  rwa [List.take_left' h1, List.take_left' h2] at hh

/-- C7 witness: the round-trip theorem applied with the identity block
permutation standing in for the library's AES, a 128-bit key, the payload
[1, 2, 3] and two distinct IVs. -/
theorem C7_witness :
    AESEncryption.decrypt idCipher key16
      (AESEncryption.encrypt idCipher key16 iv0 [1, 2, 3]) = .ok [1, 2, 3] ∧
    AESEncryption.decrypt idCipher key16
      (AESEncryption.encrypt idCipher key16 iv1 [1, 2, 3]) = .ok [1, 2, 3] ∧
    AESEncryption.encrypt idCipher key16 iv0 [1, 2, 3] ≠
      AESEncryption.encrypt idCipher key16 iv1 [1, 2, 3] :=
  C7_aes_roundtrip idCipher idCipher key16 iv0 iv1 [1, 2, 3]
    (Or.inl (by decide)) (fun _ _ => rfl) (fun _ hb => hb)
    (by decide) (by decide) (by decide)

/-- C8: the claim says AESEncryption.decrypt fails with an InvalidCiphertext
error on short input or bad padding. Refuted: at the 3-byte input [1, 2, 3]
decrypt fails with the pycryptodome ValueError for an incorrect IV length —
there is no InvalidCiphertext anywhere in encryption.py, and the library
ValueError escapes unclassified. -/
theorem C8_counterexample :
    AESEncryption.decrypt idCipher key16 [1, 2, 3] =
      .error .valueErrorIVLength ∧
    Except.error PyExc.valueErrorIVLength ≠
      (Except.error PyExc.invalidCiphertext : Except PyExc Bytes) := by
  constructor
  · decide
  · decide

/-- C8 (amended): decrypt does fail on every input shorter than 128 bits — but
with the AES library's ValueError for an incorrect IV length — and it fails
with the library's ValueError from unpad whenever padding removal fails after
block decryption; no failure of decrypt is ever the InvalidCiphertext error of
the design taxonomy, which the code never raises. -/
theorem C8_decrypt_amended (D : Bytes → Bytes → Bytes) (k data : Bytes) :
    (data.length < 16 →
      AESEncryption.decrypt D k data = .error .valueErrorIVLength) ∧
    (∀ e, AESEncryption.decrypt D k data = .error e →
      e ≠ .invalidCiphertext) ∧
    (16 ≤ data.length → (data.length - 16) % 16 = 0 →
      unpad16 (cbcDecBlocks (D k) (data.take 16)
        (chunk16 (data.drop 16))).flatten = .error .valueErrorPadding →
      AESEncryption.decrypt D k data = .error .valueErrorPadding) := by
  have htake : (data.take 16).length = min 16 data.length :=
    List.length_take _ _
  have hdrop : (data.drop 16).length = data.length - 16 :=
    List.length_drop _ _
  refine ⟨?_, ?_, ?_⟩
  · intro h
    simp only [AESEncryption.decrypt]
    rw [if_pos (by omega)]
  · intro e he hbad
    subst hbad
    simp only [AESEncryption.decrypt] at he
    split at he
    · cases he
    · split at he
      · cases he
      · exact unpad16_not_invalid _ he
  · intro hge hmod hup
    simp only [AESEncryption.decrypt]
    rw [if_neg (by omega), if_neg (by omega)]
    exact hup

/-- C8 witness: the amended theorem applied at the 3-byte input (IV-length
ValueError, which is not InvalidCiphertext) and at a 32-byte all-zero input
whose padding removal fails (padding ValueError). -/
theorem C8_witness :
    AESEncryption.decrypt idCipher key16 [1, 2, 3] =
      .error .valueErrorIVLength ∧
    PyExc.valueErrorIVLength ≠ PyExc.invalidCiphertext ∧
    AESEncryption.decrypt idCipher key16 (List.replicate 32 0) =
      .error .valueErrorPadding :=
  ⟨(C8_decrypt_amended idCipher key16 [1, 2, 3]).1 (by decide),
   (C8_decrypt_amended idCipher key16 [1, 2, 3]).2.1 _
     ((C8_decrypt_amended idCipher key16 [1, 2, 3]).1 (by decide)),
   (C8_decrypt_amended idCipher key16 (List.replicate 32 0)).2.2
     (by decide) (by decide) (by decide)⟩

/-- C9: XOR round-trip — for all bit arrays p and keys k with the key at least
as long as the payload, decrypt (encrypt p k) k = p, and encrypt and decrypt
are the identical operation. -/
theorem C9_xor_roundtrip (p k : List Bool) (h : p.length ≤ k.length) :
    XOREncryption.decrypt (XOREncryption.encrypt p k) k = p ∧
    XOREncryption.encrypt = XOREncryption.decrypt :=
  ⟨xor_roundtrip_bits p k h, rfl⟩

/-- C9 witness: the round-trip theorem at a 3-bit payload and a 4-bit key. -/
theorem C9_witness :
    XOREncryption.decrypt (XOREncryption.encrypt [true, false, true]
      (List.replicate 4 true)) (List.replicate 4 true) = [true, false, true] ∧
    XOREncryption.encrypt = XOREncryption.decrypt :=
  C9_xor_roundtrip [true, false, true] (List.replicate 4 true) (by decide)

/-- C5: the claim says every received frame whose key index does not resolve in
the local key window is silently dropped with no error raised. Refuted: with
the flat key list after one generation, the audio receive handler applied to a
frame carrying key index 7 raises IndexError — an escaping exception, not a
silent drop. -/
theorem C5_counterexample :
    audio_on_message "me" "other" keys1 decOkA msg7 = .pyError .indexError ∧
    RecvOutcome.pyError PyExc.indexError ≠ RecvOutcome.dropped := by
  constructor
  · decide
  · decide

/-- C5 (amended): in the video receive handler a peer frame whose 4-byte
big-endian key index differs from the current key index is silently dropped
and nothing is delivered, and a frame whose index matches is decrypted with
the current key and delivered; but a decryption failure escapes the video
handler as an error rather than being dropped, and in the audio receive
handler a key index not present in the flat key list raises IndexError rather
than being dropped. -/
theorem C5_receive_amended (self_id sender : String) (cur : Nat) (key : Bytes)
    (dec : Bytes → Bytes → Except PyExc Bytes)
    (decA : Bytes → PyVal → Except PyExc Bytes) (keys : List PyVal)
    (msg : Bytes) (hne : sender ≠ self_id) :
    (beBytesToNat (msg.take 4) ≠ cur →
      video_on_message self_id sender cur key dec msg = .dropped) ∧
    (beBytesToNat (msg.take 4) = cur →
      (∀ d, dec (msg.drop 4) key = .ok d →
        video_on_message self_id sender cur key dec msg = .delivered d) ∧
      (∀ e, dec (msg.drop 4) key = .error e →
        video_on_message self_id sender cur key dec msg = .pyError e)) ∧
    (keys[beBytesToNat (msg.take 4)]? = none →
      audio_on_message self_id sender keys decA msg = .pyError .indexError) := by
  refine ⟨?_, ?_, ?_⟩
  · intro h
    simp only [video_on_message]
    rw [if_neg hne, if_pos h]
  · intro h
    constructor
    · intro d hd
      simp only [video_on_message]
      rw [if_neg hne, if_neg (by simp [h]), hd]
    · intro e hee
      simp only [video_on_message]
      rw [if_neg hne, if_neg (by simp [h]), hee]
  · intro h
    simp only [audio_on_message]
    rw [if_neg hne, h]

/-- C5 witness: the amended theorem applied concretely — a video frame with
index 7 against current index 3 is dropped, the same frame against current
index 7 is decrypted and delivered, and the audio handler raises IndexError
for index 7 against the two-entry flat key list. -/
theorem C5_witness :
    video_on_message "me" "other" 3 key16 decOkV msg7 = .dropped ∧
    video_on_message "me" "other" 7 key16 decOkV msg7 = .delivered [42, 43] ∧
    audio_on_message "me" "other" keys1 decOkA msg7 = .pyError .indexError :=
  ⟨(C5_receive_amended "me" "other" 3 key16 decOkV decOkA keys1 msg7
      (by decide)).1 (by decide),
   ((C5_receive_amended "me" "other" 7 key16 decOkV decOkA keys1 msg7
      (by decide)).2.1 (by decide)).1 [42, 43] (by decide),
   (C5_receive_amended "me" "other" 7 key16 decOkV decOkA keys1 msg7
      (by decide)).2.2 (by decide)⟩

/-- C6: the claim says the key store retains at most the last W (index, key)
pairs (window default 4), evicting the oldest beyond capacity. Refuted: after
five generator iterations the flat keys list has all ten elements — five
indices with their keys, nothing structured as pairs and nothing evicted — and
both the oldest index 0 and the newest index 4 are still present. -/
theorem C6_counterexample :
    (gen_keys (fun _ => key16) 5).2.length = 10 ∧
    PyVal.int 0 ∈ (gen_keys (fun _ => key16) 5).2 ∧
    PyVal.int 4 ∈ (gen_keys (fun _ => key16) 5).2 := by
  refine ⟨?_, ?_, ?_⟩ <;> decide

/-- C6 (amended): key indices are assigned consecutively starting at 0,
strictly increasing and never reused — after n iterations the counter is n,
the entry at flat position 2j is the index j exactly for j < n and the entry
at 2j+1 is its key — but the store is a flat list that interleaves indices and
keys as separate elements, grows without bound (length 2n), and never evicts
anything. -/
theorem C6_keygen_amended (genKey : Nat → Bytes) (n : Nat) :
    (gen_keys genKey n).1 = n ∧
    (gen_keys genKey n).2.length = 2 * n ∧
    (∀ j : Nat, (gen_keys genKey n).2[2 * j]? =
      if j < n then some (.int j) else none) ∧
    (∀ j : Nat, (gen_keys genKey n).2[2 * j + 1]? =
      if j < n then some (.bytes (genKey j)) else none) := by
  induction n with
  | zero =>
    refine ⟨rfl, rfl, ?_, ?_⟩ <;> intro j <;> simp [gen_keys]
  | succ m ih =>
    obtain ⟨ih1, ih2, ih3, ih4⟩ := ih
    refine ⟨?_, ?_, ?_, ?_⟩
    · simp [gen_keys, gen_keys_step, ih1]
    · simp only [gen_keys, gen_keys_step, List.length_append, ih2,
        List.length_cons, List.length_nil]
      omega
    · intro j
      simp only [gen_keys, gen_keys_step, ih1]
      rw [List.getElem?_append]
      rcases Nat.lt_trichotomy j m with hj | hj | hj
      · rw [if_pos (by omega), ih3 j, if_pos hj, if_pos (by omega)]
      · subst hj
        rw [if_neg (by omega), if_pos (by omega), ih2, Nat.sub_self]
        rfl
      · rw [if_neg (by omega), if_neg (by omega), ih2,
          List.getElem?_eq_none (by simp; omega)]
    · intro j
      simp only [gen_keys, gen_keys_step, ih1]
      rw [List.getElem?_append]
      rcases Nat.lt_trichotomy j m with hj | hj | hj
      · rw [if_pos (by omega), ih4 j, if_pos hj, if_pos (by omega)]
      · rw [if_neg (by omega), if_pos (by omega), ih2]
        have hsub : 2 * j + 1 - 2 * m = 1 := by omega
        rw [hsub, hj]
        rfl
      · rw [if_neg (by omega), if_neg (by omega), ih2,
          List.getElem?_eq_none (by simp; omega)]
